import Mathlib

/-!
Verification of the staleness-aware cache and refresh-coordination subsystem
of the AlphaStream backend (src/main.py, src/database/db_manager.py), as a
shallow embedding in Lean 4.

Conventions of the embedding:
- SQLite rows of the `stocks` table become a Lean structure `StockRec`; the
  table itself is a `List StockRec` (SQL tables are unordered multisets of
  rows; we keep a list and prove key-uniqueness is preserved where needed).
- `last_updated` is typed as a rational julian-day timestamp, because the
  freshness logic computes on it; all other columns are carried opaquely as
  SQL values.
- Stateful methods of `DatabaseManager` become explicit state-passing
  functions.  A per-record `cursor.execute` exception (malformed record,
  constraint violation) is modelled by an oracle `execFails : StockRec → Bool`
  saying which records' execute call raises.
- Timestamps and TTLs are rationals; `now` is passed explicitly.
-/

namespace AlphaStream

/-- A SQLite storage value (NULL, INTEGER or TEXT); column payloads the
verified logic never computes with are carried in this opaque form. -/
inductive SqlValue where
  | null
  | intVal (i : Int)
  | textVal (s : String)
deriving DecidableEq, Inhabited

/-- One row of the `stocks` table, with the 41 columns written by
`insert_stocks_bulk` (src/database/db_manager.py lines 52-74).  The natural
key is `ticker`; `last_updated` is the julian-day timestamp consumed by
`get_data_age`. -/
structure StockRec where
  ticker : String
  name : SqlValue
  sector : SqlValue
  industry : SqlValue
  price : SqlValue
  change_1d : SqlValue
  change_1w : SqlValue
  change_1m : SqlValue
  change_1y : SqlValue
  change_5y : SqlValue
  change_ytd : SqlValue
  volume : SqlValue
  high_1d : SqlValue
  low_1d : SqlValue
  high_1m : SqlValue
  low_1m : SqlValue
  high_1y : SqlValue
  low_1y : SqlValue
  high_5y : SqlValue
  low_5y : SqlValue
  pe_ratio : SqlValue
  eps : SqlValue
  dividend_yield : SqlValue
  market_cap : SqlValue
  shares_outstanding : SqlValue
  net_profit_margin : SqlValue
  gross_margin : SqlValue
  roe : SqlValue
  revenue_ttm : SqlValue
  beta : SqlValue
  institutional_ownership : SqlValue
  debt_to_equity : SqlValue
  year_founded : SqlValue
  website : SqlValue
  city : SqlValue
  state : SqlValue
  zip : SqlValue
  weight : SqlValue
  last_updated : ℚ
  data_source : SqlValue
  is_sp500 : SqlValue
deriving DecidableEq, Inhabited

/-- The `stocks` table. -/
abbrev StocksTable := List StockRec

/-- Modelled from the spec: the schema file `database/schema.sql` read by
`init_database` is not part of the sources; per the spec the natural key of
a persisted entity is the ticker symbol, so `INSERT OR REPLACE` replaces the
row whose `ticker` equals the incoming record's `ticker`, and appends a new
row when no such row exists. -/
def upsertRow (T : StocksTable) (r : StockRec) : StocksTable :=
  if T.any (fun s => s.ticker == r.ticker) then
    T.map (fun s => if s.ticker == r.ticker then r else s)
  else
    T ++ [r]

/-- `DatabaseManager.insert_stocks_bulk` (src/database/db_manager.py lines
43-84): iterate over the batch, each record's `cursor.execute` wrapped in its
own try/except; a raising record is skipped (only logged), a succeeding one
increments `success_count`.  Returns the new table and `success_count`. -/
def insert_stocks_bulk (execFails : StockRec → Bool) (T : StocksTable)
    (stocks : List StockRec) : StocksTable × Nat :=
  stocks.foldl
    (fun acc stock =>
      if execFails stock then acc else (upsertRow acc.1 stock, acc.2 + 1))
    (T, 0)

/-- Folding `upsertRow` over a list of records (the successful ones). -/
def applyRows (T : StocksTable) (rs : List StockRec) : StocksTable :=
  rs.foldl upsertRow T

/-- The row a first-match lookup by ticker finds (SQL `WHERE ticker = ?`). -/
def lookupRow (T : StocksTable) (k : String) : Option StockRec :=
  T.find? (fun s => s.ticker == k)

/-- The tickers of a table, in row order. -/
def tableKeys (T : StocksTable) : List String :=
  T.map (fun s => s.ticker)

/-- Key-uniqueness of a table (the `ticker` primary-key constraint). -/
def nodupKeys (T : StocksTable) : Prop :=
  (tableKeys T).Nodup

instance (T : StocksTable) : Decidable (nodupKeys T) :=
  List.nodupDecidable (tableKeys T)

/-- `MAX(last_updated)` over the table: SQL MAX is NULL on an empty table. -/
def sqlMaxLastUpdated (T : StocksTable) : Option ℚ :=
  T.foldl
    (fun acc r =>
      match acc with
      | none => some r.last_updated
      | some m => some (max m r.last_updated))
    none

/-- `DatabaseManager.get_data_age` (src/database/db_manager.py lines
163-177): `(julianday(now) - julianday(MAX(last_updated))) * 24 * 60`;
the aggregate query always yields one row, whose value is NULL exactly when
`MAX(last_updated)` is NULL, and `result['age_minutes']` is then `None`. -/
def get_data_age (T : StocksTable) (now : ℚ) : Option ℚ :=
  (sqlMaxLastUpdated T).map (fun m => (now - m) * 24 * 60)

/-- `DatabaseManager.needs_refresh` (src/database/db_manager.py lines
179-184): `True` when `get_data_age()` is `None`, else `age > max_age_minutes`. -/
def needs_refresh (T : StocksTable) (now : ℚ) (max_age_minutes : ℚ) : Bool :=
  match get_data_age T now with
  | none => true
  | some age => decide (age > max_age_minutes)

/-- `needs_refresh` called without an argument: the Python signature declares
`max_age_minutes: int = 15`. -/
def needs_refresh_default (T : StocksTable) (now : ℚ) : Bool :=
  needs_refresh T now 15

/-- One row of the `refresh_log` table, with the five columns written by
`log_refresh`; the timestamp column is filled by a schema-level default and
orthogonal to the claims. -/
structure RefreshRecord where
  stocks_updated : Int
  data_source : String
  success : Bool
  error_message : Option String
  duration_seconds : ℚ
deriving DecidableEq, Inhabited

/-- The two tables owned by `DatabaseManager`. -/
structure DBState where
  stocks : StocksTable
  refresh_log : List RefreshRecord
deriving DecidableEq, Inhabited

/-- `DatabaseManager.log_refresh` (src/database/db_manager.py lines 146-161):
a single `INSERT INTO refresh_log` of the five given values. -/
def log_refresh (st : DBState) (stocks_updated : Int) (data_source : String)
    (success : Bool) (duration : ℚ) (error_msg : Option String) : DBState :=
  { st with
    refresh_log :=
      st.refresh_log ++
        [{ stocks_updated := stocks_updated
           data_source := data_source
           success := success
           error_message := error_msg
           duration_seconds := duration }] }

/-- The operations `DatabaseManager` exposes to the rest of the program
(src/database/db_manager.py); read-only queries carry their arguments but do
not change the state. -/
inductive CoreOp where
  | insertStocksBulk (execFails : StockRec → Bool) (stocks : List StockRec)
  | logRefresh (stocks_updated : Int) (data_source : String) (success : Bool)
      (duration : ℚ) (error_msg : Option String)
  | getStock (ticker : String)
  | getAllStocks (order_by : String)
  | searchStocks (q : String)
  | getStocksBySector (sector : String)
  | getDataAge (now : ℚ)
  | needsRefresh (now : ℚ) (max_age_minutes : ℚ)

/-- The state transformation each `DatabaseManager` operation performs. -/
def applyOp (st : DBState) : CoreOp → DBState
  | .insertStocksBulk execFails stocks =>
      { st with stocks := (insert_stocks_bulk execFails st.stocks stocks).1 }
  | .logRefresh n ds sc d em => log_refresh st n ds sc d em
  | .getStock _ => st
  | .getAllStocks _ => st
  | .searchStocks _ => st
  | .getStocksBySector _ => st
  | .getDataAge _ => st
  | .needsRefresh _ _ => st

/-- One cache slot: the stored value with its insertion time. -/
structure CacheEntry (V : Type) where
  value : V
  insertedAt : ℚ
deriving DecidableEq

/-- Modelled from the spec: `utils/cache.TTLCache` is imported by
src/main.py but its module is not among the sources.  Per the spec a TTL
cache is a key → (value, insertedAt) mapping with one fixed TTL;
the call sites in src/main.py unpack `get` as a pair, so an absent key
yields `(None, _)`. -/
structure TTLCache (V : Type) where
  ttl : ℚ
  entries : List (String × CacheEntry V)
deriving DecidableEq

/-- Modelled from the spec: `get(key)` returns the stored value together with
`isStale = (now - insertedAt) > ttl`; the entry is returned regardless of
staleness, and an absent key is reported as no value. -/
def TTLCache.get (c : TTLCache V) (key : String) (now : ℚ) :
    Option V × Bool :=
  match c.entries.find? (fun p => p.1 == key) with
  | some p => (some p.2.value, decide (now - p.2.insertedAt > c.ttl))
  | none => (none, false)

/-- Modelled from the spec: `set(key, value)` inserts or overwrites the entry
for `key` with the current timestamp. -/
def TTLCache.set (c : TTLCache V) (key : String) (v : V) (now : ℚ) :
    TTLCache V :=
  { c with
    entries :=
      (key, { value := v, insertedAt := now }) ::
        c.entries.filter (fun p => !(p.1 == key)) }

/-- Python truthiness of an `Optional[List]`: `None` and `[]` are falsy. -/
def truthyList : Option (List α) → Bool
  | some (_ :: _) => true
  | some [] => false
  | none => false

/-- A raw news item as returned by the provider: a JSON object whose fields
are read with `item.get(...)` in src/main.py, hence all optional. -/
structure NewsRaw where
  id : Option Int
  datetime : Option Int
  headline : Option String
  summary : Option String
  source : Option String
  url : Option String
deriving DecidableEq, Inhabited

/-- Modelled from the spec: the `MarketNewsItem` response model lives in the
excluded `models` module; its fields are exactly those constructed at
src/main.py lines 327-336 and 362-373.  `publishedAt` is kept as the epoch
second that `datetime.fromtimestamp(...).isoformat()` renders; the rendering
is presentation-only and timezone-dependent. -/
structure MarketNewsItem where
  id : String
  headline : String
  summary : String
  source : String
  publishedAt : Int
  category : String
  sentiment : String
  tickers : List String
  url : Option String
deriving DecidableEq, Inhabited

/-- The `MarketNewsItem(...)` construction in the news handlers:
`id=str(item.get("id", item.get("datetime", "")))`, string fields defaulted
to the empty string, `sentiment="neutral"`. -/
def toMarketNewsItem (category : String) (tickers : List String)
    (item : NewsRaw) : MarketNewsItem :=
  { id :=
      match item.id with
      | some i => toString i
      | none =>
        match item.datetime with
        | some d => toString d
        | none => ""
    headline := item.headline.getD ("")
    summary := item.summary.getD ("")
    source := item.source.getD ("")
    publishedAt := item.datetime.getD 0
    category := category
    sentiment := "neutral"
    tickers := tickers
    url := item.url }

/-- Outcome of one call into the finnhub client: success with a list of raw
items, the distinguished `FinnhubRateLimitError`, or any other exception. -/
inductive FetchResult where
  | ok (data : List NewsRaw)
  | rateLimited (msg : String)
  | failed (msg : String)
deriving DecidableEq

/-- What a news endpoint hands to the HTTP layer: a JSON payload, or an
`HTTPException` with a status code and detail string. -/
inductive NewsResponse where
  | payload (items : List MarketNewsItem)
  | httpError (statusCode : Nat) (detail : String)
deriving DecidableEq

/-- The state and ghost output of one news-endpoint invocation: the response,
the cache afterwards, and whether a provider fetch was attempted. -/
abbrev NewsOutcome := NewsResponse × TTLCache (List MarketNewsItem) × Bool

/-- The `/api/news` handler `news` (src/main.py lines 315-346).  The cache
hit test is Python truthiness: `if cached and not stale`.  On
`FinnhubRateLimitError` the cache is consulted again and served under
`if cached`, else HTTP 503; any other exception becomes HTTP 500.  The
outcome of the `finnhub.get_market_news(category)` call is the `fetch`
parameter; the final boolean records whether that call was reached. -/
def news (cache : TTLCache (List MarketNewsItem)) (now : ℚ)
    (fetch : FetchResult) (category : String) : NewsOutcome :=
  let cache_key := "news:" ++ category
  let r := cache.get cache_key now
  if truthyList r.1 && !r.2 then
    (.payload (r.1.getD []), cache, false)
  else
    match fetch with
    | .ok news_data =>
      let items := (news_data.take 20).map (toMarketNewsItem category [])
      (.payload items, cache.set cache_key items now, true)
    | .rateLimited msg =>
      let r2 := cache.get cache_key now
      if truthyList r2.1 then (.payload (r2.1.getD []), cache, true)
      else (.httpError 503 msg, cache, true)
    | .failed msg => (.httpError 500 msg, cache, true)

/-- The `/api/news/{ticker}` handler `company_news` (src/main.py lines
349-383): same shape as `news` with key `"news:" + ticker.upper()`, category
`"company"` and `tickers=[ticker.upper()]`; the from/to dates only
parameterize the provider call, which is the `fetch` parameter here. -/
def company_news (cache : TTLCache (List MarketNewsItem)) (now : ℚ)
    (fetch : FetchResult) (ticker : String) : NewsOutcome :=
  let cache_key := "news:" ++ ticker.toUpper
  let r := cache.get cache_key now
  if truthyList r.1 && !r.2 then
    (.payload (r.1.getD []), cache, false)
  else
    match fetch with
    | .ok news_data =>
      let items :=
        (news_data.take 20).map
          (toMarketNewsItem ("company") [ticker.toUpper])
      (.payload items, cache.set cache_key items now, true)
    | .rateLimited msg =>
      let r2 := cache.get cache_key now
      if truthyList r2.1 then (.payload (r2.1.getD []), cache, true)
      else (.httpError 503 msg, cache, true)
    | .failed msg => (.httpError 500 msg, cache, true)

/-- Modelled from the spec: `db.get_refresh_history(limit=5)` is called by
the status endpoint but no such method exists among the sources; the spec
declares the store operation `recentAudit(limit) -> sequence of records`.
Most recent records first. -/
def get_refresh_history (log : List RefreshRecord) (limit : Nat) :
    List RefreshRecord :=
  log.reverse.take limit

/-- Round half to even at integer precision (Python `round`). -/
def roundHalfEven (q : ℚ) : Int :=
  if q - ⌊q⌋ < 1 / 2 then ⌊q⌋
  else if q - ⌊q⌋ > 1 / 2 then ⌊q⌋ + 1
  else if Even ⌊q⌋ then ⌊q⌋ else ⌊q⌋ + 1

/-- Python `round(x, 2)`. -/
def pyRound2 (q : ℚ) : ℚ :=
  (roundHalfEven (q * 100) : ℚ) / 100

/-- The JSON object built by `/api/data/status`. -/
structure DataStatus where
  data_age_minutes : Option ℚ
  last_refresh : Option (List RefreshRecord)
  recent_refreshes : List RefreshRecord
  total_stocks : Nat
deriving DecidableEq

/-- The `/api/data/status` handler `get_data_status` (src/main.py lines
390-404; the duplicate registration at lines 407-418 binds the same route to
a second function, but the router matches the first).  The age field is
`round(age_minutes, 2) if age_minutes else None`: Python truthiness, so both
`None` and an age of exactly `0.0` yield `None`. -/
def get_data_status (T : StocksTable) (log : List RefreshRecord) (now : ℚ) :
    DataStatus :=
  let age_minutes := get_data_age T now
  let refresh_history := get_refresh_history log 5
  { data_age_minutes :=
      match age_minutes with
      | none => none
      | some a => if a = 0 then none else some (pyRound2 a)
    last_refresh := if refresh_history = [] then none else some refresh_history
    recent_refreshes := refresh_history
    total_stocks := T.length }

/-- Modelled from the spec: the Refresh Coordinator
(`services/refresh_scheduler.py`, imported by src/main.py but not among the
sources).  Its transient state is the in-flight flag; `runsStarted` is a
ghost counter of Bulk Refresh Executor runs ever started. -/
structure CoordState where
  inFlight : Bool
  runsStarted : Nat
deriving DecidableEq

/-- Modelled from the spec: one trigger attempt checks the in-flight flag
atomically; if a refresh is in flight it skips (no-op, back to IDLE),
otherwise it marks in-flight and starts one Bulk Refresh Executor run.
Returns the new state and whether a run was started. -/
def trigger (s : CoordState) : CoordState × Bool :=
  if s.inFlight then (s, false)
  else ({ inFlight := true, runsStarted := s.runsStarted + 1 }, true)

/-- `n` successive trigger attempts (any interleaving of atomic trigger
checks is some such sequence). -/
def applyTriggers (s : CoordState) : Nat → CoordState
  | 0 => s
  | n + 1 => applyTriggers (trigger s).1 n

/-- The last record of `rs` whose ticker is `k`, if any: the record whose
payload survives after upserting all of `rs` in order. -/
def lastUpd (rs : List StockRec) (k : String) : Option StockRec :=
  match rs with
  | [] => none
  | r :: rs =>
    match lastUpd rs k with
    | some x => some x
    | none => if r.ticker == k then some r else none

/-- A sample stock row for concrete evaluations. -/
def row0 (t : String) (lu : ℚ) : StockRec :=
  { (default : StockRec) with ticker := t, last_updated := lu }

/-- A sample news item for concrete evaluations. -/
def sampleItem : MarketNewsItem :=
  toMarketNewsItem ("general") []
    { id := some 1, datetime := some 100, headline := some ("h"),
      summary := none, source := none, url := none }

/-- A news cache whose entry for `"news:general"` is the empty list,
inserted at time 0 with TTL 5. -/
def newsEmptyCache : TTLCache (List MarketNewsItem) :=
  { ttl := 5,
    entries := [("news:general", { value := [], insertedAt := 0 })] }

/-- A news cache whose entry for `"news:general"` is a one-item list,
inserted at time 0 with TTL 5. -/
def newsItemCache : TTLCache (List MarketNewsItem) :=
  { ttl := 5,
    entries := [("news:general", { value := [sampleItem], insertedAt := 0 })] }

/-! ## Helper lemmas -/

theorem truthyList_some_iff (v : List α) :
    truthyList (some v) = true ↔ v ≠ [] := by
  cases v <;> simp [truthyList]

theorem sqlMax_go (T : StocksTable) (a : ℚ) :
    ∃ b,
      T.foldl
        (fun acc r =>
          match acc with
          | none => some r.last_updated
          | some m => some (max m r.last_updated))
        (some a) = some b ∧
      (b = a ∨ ∃ r ∈ T, r.last_updated = b) ∧ a ≤ b ∧
      ∀ r ∈ T, r.last_updated ≤ b := by
  induction T generalizing a with
  | nil => exact ⟨a, rfl, Or.inl rfl, le_refl a, by simp⟩
  | cons r T ih =>
    obtain ⟨b, hfold, hmem, hle, hub⟩ := ih (max a r.last_updated)
    refine ⟨b, hfold, ?_, le_trans (le_max_left _ _) hle, ?_⟩
    · rcases hmem with hb | ⟨r', hr', hr'b⟩
      · rcases max_choice a r.last_updated with hmax | hmax
        · exact Or.inl (hb.trans hmax)
        · exact Or.inr ⟨r, List.mem_cons_self r T, by rw [hb, hmax]⟩
      · exact Or.inr ⟨r', List.mem_cons_of_mem r hr', hr'b⟩
    · intro r' hr'
      rcases List.mem_cons.mp hr' with h | h
      · exact h ▸ le_trans (le_max_right _ _) hle
      · exact hub r' h

theorem sqlMaxLastUpdated_of_ne_nil (T : StocksTable) (h : T ≠ []) :
    ∃ b, sqlMaxLastUpdated T = some b ∧
      (∃ r ∈ T, r.last_updated = b) ∧ ∀ r ∈ T, r.last_updated ≤ b := by
  match T, h with
  | r :: T, _ =>
    obtain ⟨b, hfold, hmem, hle, hub⟩ := sqlMax_go T r.last_updated
    refine ⟨b, hfold, ?_, ?_⟩
    · rcases hmem with hb | ⟨r', hr', hr'b⟩
      · exact ⟨r, List.mem_cons_self r T, hb.symm⟩
      · exact ⟨r', List.mem_cons_of_mem r hr', hr'b⟩
    · intro r' hr'
      rcases List.mem_cons.mp hr' with h | h
      · exact h ▸ hle
      · exact hub r' h

theorem sqlMaxLastUpdated_eq_none_iff (T : StocksTable) :
    sqlMaxLastUpdated T = none ↔ T = [] := by
  constructor
  · intro h
    by_contra hne
    obtain ⟨b, hb, -, -⟩ := sqlMaxLastUpdated_of_ne_nil T hne
    rw [h] at hb
    exact Option.noConfusion hb
  · intro h
    subst h
    rfl

/-! ## Claims about dataset freshness (C6, C2) -/

/-- Claim C6: `get_data_age` returns `none` exactly when the stocks table is
empty; otherwise it returns the elapsed time from the maximum `last_updated`
across all rows to `now`, converted from julian days to minutes. -/
theorem get_data_age_spec (T : StocksTable) (now : ℚ) :
    (get_data_age T now = none ↔ T = []) ∧
    (T ≠ [] →
      ∃ r₀ ∈ T, (∀ r ∈ T, r.last_updated ≤ r₀.last_updated) ∧
        get_data_age T now = some ((now - r₀.last_updated) * 24 * 60)) := by
  constructor
  · rw [get_data_age, Option.map_eq_none']
    exact sqlMaxLastUpdated_eq_none_iff T
  · intro hne
    obtain ⟨b, hb, ⟨r₀, hr₀, hr₀b⟩, hub⟩ := sqlMaxLastUpdated_of_ne_nil T hne
    refine ⟨r₀, hr₀, fun r hr => hr₀b ▸ hub r hr, ?_⟩
    rw [get_data_age, hb]
    simp [hr₀b]

/-- Witness for C6 at a concrete one-row table. -/
theorem get_data_age_spec_witness :
    ([row0 ("AAPL") 3] : StocksTable) ≠ [] ∧
    ∃ r₀ ∈ ([row0 ("AAPL") 3] : StocksTable),
      (∀ r ∈ ([row0 ("AAPL") 3] : StocksTable),
        r.last_updated ≤ r₀.last_updated) ∧
      get_data_age [row0 ("AAPL") 3] 5 = some ((5 - r₀.last_updated) * 24 * 60) :=
  ⟨by simp, (get_data_age_spec [row0 ("AAPL") 3] 5).2 (by simp)⟩

/-- Claim C2: `needs_refresh` is true exactly when the dataset age is absent
or strictly greater than the threshold; in particular it is true on an empty
store, false when the age equals the threshold, and the default threshold is
15 minutes. -/
theorem needs_refresh_spec (T : StocksTable) (now : ℚ) (m : ℚ) :
    (needs_refresh T now m = true ↔
      get_data_age T now = none ∨
        ∃ a, get_data_age T now = some a ∧ m < a) ∧
    needs_refresh [] now m = true ∧
    (∀ a, get_data_age T now = some a → a = m →
      needs_refresh T now m = false) ∧
    needs_refresh_default T now = needs_refresh T now 15 := by
  refine ⟨?_, rfl, ?_, rfl⟩
  · cases h : get_data_age T now with
    | none => simp [needs_refresh, h]
    | some a => simp [needs_refresh, h]
  · intro a ha hm
    subst hm
    simp [needs_refresh, ha]

/-- Witness for C2: one row aged exactly the threshold does not need
refresh. -/
theorem needs_refresh_spec_witness :
    get_data_age [row0 ("AAPL") 0] 0 = some 0 ∧
    needs_refresh [row0 ("AAPL") 0] 0 0 = false :=
  ⟨by norm_num [get_data_age, sqlMaxLastUpdated, row0],
   (needs_refresh_spec [row0 ("AAPL") 0] 0 0).2.2.1 0
     (by norm_num [get_data_age, sqlMaxLastUpdated, row0]) rfl⟩

/-! ## Claim about the refresh coordinator (C8) -/

theorem applyTriggers_of_inFlight (s : CoordState) (h : s.inFlight = true) :
    ∀ n, applyTriggers s n = s := by
  intro n
  induction n with
  | zero => rfl
  | succ n ih => rw [applyTriggers, trigger, h, if_pos rfl, ih]

/-- Claim C8: at most one bulk refresh is in flight: while a refresh is
running every further trigger attempt is a no-op, and from an idle state a
burst of trigger attempts starts exactly one Bulk Refresh Executor run. -/
theorem at_most_one_refresh (s : CoordState) (n : Nat) :
    (s.inFlight = true → applyTriggers s n = s) ∧
    (s.inFlight = false → applyTriggers s (n + 1) =
      { inFlight := true, runsStarted := s.runsStarted + 1 }) := by
  constructor
  · intro h
    exact applyTriggers_of_inFlight s h n
  · intro h
    rw [applyTriggers, trigger, h]
    exact applyTriggers_of_inFlight _ rfl n

/-- Witness for C8: three trigger attempts against an in-flight coordinator
change nothing, and from idle a burst of four attempts starts one run. -/
theorem at_most_one_refresh_witness :
    applyTriggers { inFlight := true, runsStarted := 1 } 3 =
      { inFlight := true, runsStarted := 1 } ∧
    applyTriggers { inFlight := false, runsStarted := 1 } 4 =
      { inFlight := true, runsStarted := 2 } :=
  ⟨(at_most_one_refresh { inFlight := true, runsStarted := 1 } 3).1 rfl,
   (at_most_one_refresh { inFlight := false, runsStarted := 1 } 3).2 rfl⟩

/-! ## Claim about the audit log (C9) -/

/-- Claim C9: the refresh audit log is append-only: `log_refresh` appends
exactly one record carrying the given values, and no `DatabaseManager`
operation changes any previously appended record. -/
theorem refresh_log_append_only (st : DBState) (op : CoreOp) (n : Int)
    (ds : String) (sc : Bool) (d : ℚ) (em : Option String) :
    (applyOp st op).refresh_log.take st.refresh_log.length =
      st.refresh_log ∧
    (applyOp st (.logRefresh n ds sc d em)).refresh_log =
      st.refresh_log ++
        [{ stocks_updated := n, data_source := ds, success := sc,
           error_message := em, duration_seconds := d }] := by
  constructor
  · cases op with
    | logRefresh n' ds' sc' d' em' =>
      exact List.take_left st.refresh_log _
    | _ => exact List.take_length st.refresh_log
  · rfl

/-! ## Claim about per-record failure tolerance (C3) -/

theorem insert_stocks_bulk_go (execFails : StockRec → Bool)
    (stocks : List StockRec) (T : StocksTable) (n : Nat) :
    stocks.foldl
      (fun acc stock =>
        if execFails stock then acc else (upsertRow acc.1 stock, acc.2 + 1))
      (T, n) =
    (applyRows T (stocks.filter (fun s => !execFails s)),
      n + (stocks.filter (fun s => !execFails s)).length) := by
  induction stocks generalizing T n with
  | nil => simp [applyRows]
  | cons s stocks ih =>
    by_cases h : execFails s
    · simp [List.filter_cons, h, ih]
    · simp [List.filter_cons, h, ih, applyRows, Nat.add_comm,
        Nat.add_left_comm, Nat.add_assoc]

theorem insert_stocks_bulk_eq (execFails : StockRec → Bool)
    (T : StocksTable) (stocks : List StockRec) :
    insert_stocks_bulk execFails T stocks =
      (applyRows T (stocks.filter (fun s => !execFails s)),
        (stocks.filter (fun s => !execFails s)).length) := by
  rw [insert_stocks_bulk, insert_stocks_bulk_go]
  simp

/-- Claim C3: a per-record failure does not abort the batch: the returned
count is the number of records whose upsert succeeded (at most the batch
size), and the resulting table is the one obtained by upserting exactly the
non-failing records, in order, regardless of where failures occur. -/
theorem insert_stocks_bulk_partial_failure (execFails : StockRec → Bool)
    (T : StocksTable) (stocks : List StockRec) :
    (insert_stocks_bulk execFails T stocks).2 =
      (stocks.filter (fun s => !execFails s)).length ∧
    (insert_stocks_bulk execFails T stocks).2 ≤ stocks.length ∧
    (insert_stocks_bulk execFails T stocks).1 =
      applyRows T (stocks.filter (fun s => !execFails s)) := by
  rw [insert_stocks_bulk_eq]
  exact ⟨rfl, List.length_filter_le _ _, rfl⟩

/-! ## Helper lemmas for the news read path -/

theorem truthyList_eq_false_iff (o : Option (List α)) :
    truthyList o = false ↔ o = none ∨ o = some [] := by
  rcases o with _ | ⟨_ | ⟨x, xs⟩⟩ <;> simp [truthyList]

theorem news_hit (cache : TTLCache (List MarketNewsItem)) (now : ℚ)
    (category : String) (fetch : FetchResult) (v : List MarketNewsItem)
    (h : cache.get ("news:" ++ category) now = (some v, false))
    (hne : v ≠ []) :
    news cache now fetch category = (.payload v, cache, false) := by
  have ht := (truthyList_some_iff v).mpr hne
  simp [news, h, ht]

theorem news_miss_ok (cache : TTLCache (List MarketNewsItem)) (now : ℚ)
    (category : String) (data : List NewsRaw)
    (h : truthyList (cache.get ("news:" ++ category) now).1 = false ∨
      (cache.get ("news:" ++ category) now).2 = true) :
    news cache now (.ok data) category =
      (.payload ((data.take 20).map (toMarketNewsItem category [])),
       cache.set ("news:" ++ category)
         ((data.take 20).map (toMarketNewsItem category [])) now,
       true) := by
  rcases hg : cache.get ("news:" ++ category) now with ⟨cv, st⟩
  rw [hg] at h
  rcases h with h | h
  · simp only at h
    simp [news, hg, h]
  · simp only at h
    simp [news, hg, h]

theorem news_miss_rate_served (cache : TTLCache (List MarketNewsItem))
    (now : ℚ) (category msg : String) (v : List MarketNewsItem)
    (h : cache.get ("news:" ++ category) now = (some v, true))
    (hne : v ≠ []) :
    news cache now (.rateLimited msg) category = (.payload v, cache, true) := by
  have ht := (truthyList_some_iff v).mpr hne
  simp [news, h, ht]

theorem news_rate_503 (cache : TTLCache (List MarketNewsItem)) (now : ℚ)
    (category msg : String)
    (h : (cache.get ("news:" ++ category) now).1 = none ∨
      (cache.get ("news:" ++ category) now).1 = some []) :
    news cache now (.rateLimited msg) category =
      (.httpError 503 msg, cache, true) := by
  have ht : truthyList (cache.get ("news:" ++ category) now).1 = false :=
    (truthyList_eq_false_iff _).mpr h
  rcases hg : cache.get ("news:" ++ category) now with ⟨cv, st⟩
  rw [hg] at ht
  simp only at ht
  simp [news, hg, ht]

theorem news_miss_fetched (cache : TTLCache (List MarketNewsItem)) (now : ℚ)
    (category : String) (fetch : FetchResult)
    (h : truthyList (cache.get ("news:" ++ category) now).1 = false ∨
      (cache.get ("news:" ++ category) now).2 = true) :
    (news cache now fetch category).2.2 = true := by
  rcases hg : cache.get ("news:" ++ category) now with ⟨cv, st⟩
  rw [hg] at h
  simp only at h
  rcases h with h | h <;>
    cases fetch <;>
      simp only [news, hg, h, Bool.not_true, Bool.and_false, Bool.false_and,
        Bool.and_true, if_false, Bool.false_eq_true, if_neg, ite_false] <;>
      first
        | rfl
        | (split <;> rfl)

theorem company_news_hit (cache : TTLCache (List MarketNewsItem)) (now : ℚ)
    (ticker : String) (fetch : FetchResult) (v : List MarketNewsItem)
    (h : cache.get ("news:" ++ ticker.toUpper) now = (some v, false))
    (hne : v ≠ []) :
    company_news cache now fetch ticker = (.payload v, cache, false) := by
  have ht := (truthyList_some_iff v).mpr hne
  simp [company_news, h, ht]

theorem company_news_miss_ok (cache : TTLCache (List MarketNewsItem))
    (now : ℚ) (ticker : String) (data : List NewsRaw)
    (h : truthyList (cache.get ("news:" ++ ticker.toUpper) now).1 = false ∨
      (cache.get ("news:" ++ ticker.toUpper) now).2 = true) :
    company_news cache now (.ok data) ticker =
      (.payload ((data.take 20).map
         (toMarketNewsItem ("company") [ticker.toUpper])),
       cache.set ("news:" ++ ticker.toUpper)
         ((data.take 20).map (toMarketNewsItem ("company") [ticker.toUpper]))
         now,
       true) := by
  rcases hg : cache.get ("news:" ++ ticker.toUpper) now with ⟨cv, st⟩
  rw [hg] at h
  rcases h with h | h
  · simp only at h
    simp [company_news, hg, h]
  · simp only at h
    simp [company_news, hg, h]

theorem company_news_miss_rate_served (cache : TTLCache (List MarketNewsItem))
    (now : ℚ) (ticker msg : String) (v : List MarketNewsItem)
    (h : cache.get ("news:" ++ ticker.toUpper) now = (some v, true))
    (hne : v ≠ []) :
    company_news cache now (.rateLimited msg) ticker =
      (.payload v, cache, true) := by
  have ht := (truthyList_some_iff v).mpr hne
  simp [company_news, h, ht]

theorem company_news_rate_503 (cache : TTLCache (List MarketNewsItem))
    (now : ℚ) (ticker msg : String)
    (h : (cache.get ("news:" ++ ticker.toUpper) now).1 = none ∨
      (cache.get ("news:" ++ ticker.toUpper) now).1 = some []) :
    company_news cache now (.rateLimited msg) ticker =
      (.httpError 503 msg, cache, true) := by
  have ht : truthyList (cache.get ("news:" ++ ticker.toUpper) now).1 = false :=
    (truthyList_eq_false_iff _).mpr h
  rcases hg : cache.get ("news:" ++ ticker.toUpper) now with ⟨cv, st⟩
  rw [hg] at ht
  simp only at ht
  simp [company_news, hg, ht]

theorem company_news_miss_fetched (cache : TTLCache (List MarketNewsItem))
    (now : ℚ) (ticker : String) (fetch : FetchResult)
    (h : truthyList (cache.get ("news:" ++ ticker.toUpper) now).1 = false ∨
      (cache.get ("news:" ++ ticker.toUpper) now).2 = true) :
    (company_news cache now fetch ticker).2.2 = true := by
  rcases hg : cache.get ("news:" ++ ticker.toUpper) now with ⟨cv, st⟩
  rw [hg] at h
  simp only at h
  rcases h with h | h <;>
    cases fetch <;>
      simp only [company_news, hg, h, Bool.not_true, Bool.and_false,
        Bool.false_and, Bool.and_true, if_false, Bool.false_eq_true, if_neg,
        ite_false] <;>
      first
        | rfl
        | (split <;> rfl)

/-! ## Claims about the news read path (C1, C5, C10) -/

/-- Claim C1 counterexample: the cache holds a previously stored (stale)
value — the empty list — for `"news:general"`, yet under the rate-limit
error the handler raises HTTP 503 instead of returning it, because the
fallback test is Python truthiness. -/
theorem news_rate_limited_empty_cached_503 :
    (newsEmptyCache.get ("news:general") 6).1 = some [] ∧
    news newsEmptyCache 6 (.rateLimited ("limit")) ("general") =
      (.httpError 503 ("limit"), newsEmptyCache, true) := by
  constructor
  · rfl
  · have key : ("news:" ++ "general" : String) = ("news:general") := rfl
    refine news_rate_503 newsEmptyCache 6 ("general") ("limit") (Or.inr ?_)
    rw [key]
    rfl

/-- Claim C1 (amended): for both news endpoints, when the provider fetch
fails with the rate-limit error: a previously stored non-empty value for the
key (fresh or stale) is returned with the cache unchanged; when the cache
holds no value — or holds the empty list, which Python truthiness treats as
absent — the handler raises HTTP 503. -/
theorem news_rate_limited_fallback (cache : TTLCache (List MarketNewsItem))
    (now : ℚ) (category ticker msg : String) (v : List MarketNewsItem) :
    ((cache.get ("news:" ++ category) now).1 = some v → v ≠ [] →
      (news cache now (.rateLimited msg) category).1 = .payload v ∧
      (news cache now (.rateLimited msg) category).2.1 = cache) ∧
    ((cache.get ("news:" ++ category) now).1 = none ∨
        (cache.get ("news:" ++ category) now).1 = some [] →
      news cache now (.rateLimited msg) category =
        (.httpError 503 msg, cache, true)) ∧
    ((cache.get ("news:" ++ ticker.toUpper) now).1 = some v → v ≠ [] →
      (company_news cache now (.rateLimited msg) ticker).1 = .payload v ∧
      (company_news cache now (.rateLimited msg) ticker).2.1 = cache) ∧
    ((cache.get ("news:" ++ ticker.toUpper) now).1 = none ∨
        (cache.get ("news:" ++ ticker.toUpper) now).1 = some [] →
      company_news cache now (.rateLimited msg) ticker =
        (.httpError 503 msg, cache, true)) := by
  refine ⟨?_, news_rate_503 cache now category msg, ?_,
    company_news_rate_503 cache now ticker msg⟩
  · intro hv hne
    rcases hg : cache.get ("news:" ++ category) now with ⟨cv, st⟩
    rw [hg] at hv
    simp only at hv
    subst hv
    cases st with
    | false =>
      rw [news_hit cache now category (.rateLimited msg) v hg hne]
      exact ⟨rfl, rfl⟩
    | true =>
      rw [news_miss_rate_served cache now category msg v hg hne]
      exact ⟨rfl, rfl⟩
  · intro hv hne
    rcases hg : cache.get ("news:" ++ ticker.toUpper) now with ⟨cv, st⟩
    rw [hg] at hv
    simp only at hv
    subst hv
    cases st with
    | false =>
      rw [company_news_hit cache now ticker (.rateLimited msg) v hg hne]
      exact ⟨rfl, rfl⟩
    | true =>
      rw [company_news_miss_rate_served cache now ticker msg v hg hne]
      exact ⟨rfl, rfl⟩

/-- Witness for the amended C1: a stale one-item cache entry is served under
the rate-limit error, and a cache with no entry for the key yields 503. -/
theorem news_rate_limited_fallback_witness :
    (newsItemCache.get ("news:" ++ "general") 6).1 = some [sampleItem] ∧
    (news newsItemCache 6 (.rateLimited ("limit")) ("general")).1 =
      .payload [sampleItem] ∧
    news newsItemCache 6 (.rateLimited ("limit")) ("AMZN") =
      (.httpError 503 ("limit"), newsItemCache, true) := by
  refine ⟨rfl, ?_, ?_⟩
  · exact ((news_rate_limited_fallback newsItemCache 6 ("general") ("T")
      ("limit") [sampleItem]).1 rfl (by simp)).1
  · exact (news_rate_limited_fallback newsItemCache 6 ("AMZN") ("T")
      ("limit") [sampleItem]).2.1 (Or.inl rfl)

/-- Claim C5 counterexample: the cache holds a fresh entry for
`"news:general"` (the empty list, inserted at time 0, ttl 5, read at time
1), yet the handler still performs a provider fetch, because the hit test is
Python truthiness. -/
theorem news_fresh_empty_hit_still_fetches :
    (newsEmptyCache.get ("news:general") 1).1 = some [] ∧
    (newsEmptyCache.get ("news:general") 1).2 = false ∧
    (news newsEmptyCache 1 (.ok []) ("general")).2.2 = true := by
  refine ⟨rfl, ?_, ?_⟩
  · show decide ((1 : ℚ) - 0 > 5) = false
    norm_num
  · have key : ("news:" ++ "general" : String) = ("news:general") := rfl
    refine news_miss_fetched newsEmptyCache 1 ("general") (.ok []) (Or.inl ?_)
    rw [key]
    rfl

/-- Claim C5 (amended): for both news endpoints: a fresh and non-empty
cached entry is returned with no provider call; when the entry is stale,
absent, or the empty list (which Python truthiness treats as absent), a live
fetch is performed, and on fetch success the transformed value is stored
under the key and returned. -/
theorem news_cache_read_path (cache : TTLCache (List MarketNewsItem))
    (now : ℚ) (category ticker : String) (data : List NewsRaw)
    (v : List MarketNewsItem) :
    (cache.get ("news:" ++ category) now = (some v, false) → v ≠ [] →
      ∀ fetch, news cache now fetch category = (.payload v, cache, false)) ∧
    ((cache.get ("news:" ++ category) now).1 = none ∨
     (cache.get ("news:" ++ category) now).1 = some [] ∨
     (cache.get ("news:" ++ category) now).2 = true →
      (∀ fetch, (news cache now fetch category).2.2 = true) ∧
      news cache now (.ok data) category =
        (.payload ((data.take 20).map (toMarketNewsItem category [])),
         cache.set ("news:" ++ category)
           ((data.take 20).map (toMarketNewsItem category [])) now,
         true)) ∧
    (cache.get ("news:" ++ ticker.toUpper) now = (some v, false) → v ≠ [] →
      ∀ fetch, company_news cache now fetch ticker =
        (.payload v, cache, false)) ∧
    ((cache.get ("news:" ++ ticker.toUpper) now).1 = none ∨
     (cache.get ("news:" ++ ticker.toUpper) now).1 = some [] ∨
     (cache.get ("news:" ++ ticker.toUpper) now).2 = true →
      (∀ fetch, (company_news cache now fetch ticker).2.2 = true) ∧
      company_news cache now (.ok data) ticker =
        (.payload ((data.take 20).map
           (toMarketNewsItem ("company") [ticker.toUpper])),
         cache.set ("news:" ++ ticker.toUpper)
           ((data.take 20).map
             (toMarketNewsItem ("company") [ticker.toUpper])) now,
         true)) := by
  refine ⟨?_, ?_, ?_, ?_⟩
  · intro hg hne fetch
    exact news_hit cache now category fetch v hg hne
  · intro h
    have h2 : truthyList (cache.get ("news:" ++ category) now).1 = false ∨
        (cache.get ("news:" ++ category) now).2 = true := by
      rcases h with h | h | h
      · exact Or.inl ((truthyList_eq_false_iff _).mpr (Or.inl h))
      · exact Or.inl ((truthyList_eq_false_iff _).mpr (Or.inr h))
      · exact Or.inr h
    exact ⟨fun fetch => news_miss_fetched cache now category fetch h2,
      news_miss_ok cache now category data h2⟩
  · intro hg hne fetch
    exact company_news_hit cache now ticker fetch v hg hne
  · intro h
    have h2 : truthyList (cache.get ("news:" ++ ticker.toUpper) now).1 = false ∨
        (cache.get ("news:" ++ ticker.toUpper) now).2 = true := by
      rcases h with h | h | h
      · exact Or.inl ((truthyList_eq_false_iff _).mpr (Or.inl h))
      · exact Or.inl ((truthyList_eq_false_iff _).mpr (Or.inr h))
      · exact Or.inr h
    exact ⟨fun fetch => company_news_miss_fetched cache now ticker fetch h2,
      company_news_miss_ok cache now ticker data h2⟩

/-- Witness for the amended C5: a fresh non-empty entry short-circuits the
read, and a miss stores and returns the fetched value. -/
theorem news_cache_read_path_witness :
    newsItemCache.get ("news:" ++ "general") 1 = (some [sampleItem], false) ∧
    news newsItemCache 1 (.rateLimited ("x")) ("general") =
      (.payload [sampleItem], newsItemCache, false) ∧
    news newsItemCache 1 (.ok []) ("AMZN") =
      (.payload [], newsItemCache.set ("news:" ++ "AMZN") [] 1, true) := by
  have hkey : newsItemCache.get ("news:" ++ "general") 1 =
      (some [sampleItem], false) := by
    show (_, decide ((1 : ℚ) - 0 > 5)) = (some [sampleItem], false)
    norm_num
  refine ⟨hkey, ?_, ?_⟩
  · exact (news_cache_read_path newsItemCache 1 ("general") ("T") []
      [sampleItem]).1 hkey (by simp) (.rateLimited ("x"))
  · exact ((news_cache_read_path newsItemCache 1 ("AMZN") ("T") []
      [sampleItem]).2.1 (Or.inl rfl)).2

/-- Claim C10: cache presence in the news read path is decided by Python
truthiness, so a cached empty list behaves as absent: any request with a
cached empty list for its key still reaches the provider fetch, and under
the rate-limit error the empty cached list is not served — HTTP 503
propagates instead. -/
theorem news_empty_cached_list_behaves_absent
    (cache : TTLCache (List MarketNewsItem)) (now : ℚ)
    (category ticker msg : String) (fetch : FetchResult) :
    ((cache.get ("news:" ++ category) now).1 = some [] →
      (news cache now fetch category).2.2 = true) ∧
    ((cache.get ("news:" ++ category) now).1 = some [] →
      news cache now (.rateLimited msg) category =
        (.httpError 503 msg, cache, true)) ∧
    ((cache.get ("news:" ++ ticker.toUpper) now).1 = some [] →
      (company_news cache now fetch ticker).2.2 = true) ∧
    ((cache.get ("news:" ++ ticker.toUpper) now).1 = some [] →
      company_news cache now (.rateLimited msg) ticker =
        (.httpError 503 msg, cache, true)) := by
  refine ⟨?_, ?_, ?_, ?_⟩
  · intro h
    exact news_miss_fetched cache now category fetch
      (Or.inl ((truthyList_eq_false_iff _).mpr (Or.inr h)))
  · intro h
    exact news_rate_503 cache now category msg (Or.inr h)
  · intro h
    exact company_news_miss_fetched cache now ticker fetch
      (Or.inl ((truthyList_eq_false_iff _).mpr (Or.inr h)))
  · intro h
    exact company_news_rate_503 cache now ticker msg (Or.inr h)

/-- Witness for C10 at a concrete cache holding a fresh empty list. -/
theorem news_empty_cached_list_behaves_absent_witness :
    (newsEmptyCache.get ("news:" ++ "general") 1).1 = some [] ∧
    (news newsEmptyCache 1 (.ok [])  ("general")).2.2 = true ∧
    news newsEmptyCache 1 (.rateLimited ("r")) ("general") =
      (.httpError 503 ("r"), newsEmptyCache, true) := by
  refine ⟨rfl, ?_, ?_⟩
  · exact (news_empty_cached_list_behaves_absent newsEmptyCache 1 ("general")
      ("T") ("r") (.ok [])).1 rfl
  · exact (news_empty_cached_list_behaves_absent newsEmptyCache 1 ("general")
      ("T") ("r") (.ok [])).2.1 rfl

/-! ## Helper lemmas for upsert idempotence -/

theorem hasKey_iff (T : StocksTable) (t : String) :
    T.any (fun s => s.ticker == t) = true ↔ t ∈ tableKeys T := by
  simp only [tableKeys, List.any_eq_true, List.mem_map, beq_iff_eq]

theorem find?_map_replace (T : StocksTable) (r : StockRec) (k : String)
    (hk : r.ticker ≠ k) :
    (T.map (fun s => if s.ticker == r.ticker then r else s)).find?
        (fun s => s.ticker == k) =
      T.find? (fun s => s.ticker == k) := by
  induction T with
  | nil => rfl
  | cons s T ih =>
    rw [List.map_cons]
    by_cases hb : s.ticker = r.ticker
    · rw [if_pos (beq_iff_eq.mpr hb),
        List.find?_cons_of_neg _ (by simp [hk]),
        List.find?_cons_of_neg _ (by simp [hb, hk]), ih]
    · rw [if_neg (by simp [hb])]
      by_cases hp : s.ticker = k
      · rw [List.find?_cons_of_pos _ (by simp [hp]),
          List.find?_cons_of_pos _ (by simp [hp])]
      · rw [List.find?_cons_of_neg _ (by simp [hp]),
          List.find?_cons_of_neg _ (by simp [hp]), ih]

theorem find?_map_hit (T : StocksTable) (r : StockRec)
    (hT : T.any (fun s => s.ticker == r.ticker) = true) :
    (T.map (fun s => if s.ticker == r.ticker then r else s)).find?
        (fun s => s.ticker == r.ticker) = some r := by
  induction T with
  | nil => simp at hT
  | cons s T ih =>
    rw [List.map_cons]
    by_cases hb : s.ticker = r.ticker
    · rw [if_pos (beq_iff_eq.mpr hb)]
      exact List.find?_cons_of_pos _ (by simp)
    · rw [if_neg (by simp [hb]), List.find?_cons_of_neg _ (by simp [hb])]
      refine ih ?_
      rcases List.any_eq_true.mp hT with ⟨x, hx, hpx⟩
      rcases List.mem_cons.mp hx with hxs | hxT
      · exact absurd (beq_iff_eq.mp (hxs ▸ hpx)) hb
      · exact List.any_eq_true.mpr ⟨x, hxT, hpx⟩

theorem find?_append_single (T : StocksTable) (r : StockRec) (k : String) :
    (T ++ [r]).find? (fun s => s.ticker == k) =
      match T.find? (fun s => s.ticker == k) with
      | some x => some x
      | none => if r.ticker == k then some r else none := by
  induction T with
  | nil =>
    simp only [List.nil_append, List.find?_nil]
    by_cases hp : r.ticker = k
    · rw [List.find?_cons_of_pos _ (by simp [hp]), if_pos (by simp [hp])]
    · rw [List.find?_cons_of_neg _ (by simp [hp]), if_neg (by simp [hp]),
        List.find?_nil]
  | cons s T ih =>
    rw [List.cons_append]
    by_cases hp : s.ticker = k
    · rw [List.find?_cons_of_pos _ (by simp [hp]),
        List.find?_cons_of_pos _ (by simp [hp])]
    · rw [List.find?_cons_of_neg _ (by simp [hp]),
        List.find?_cons_of_neg _ (by simp [hp]), ih]

theorem lookupRow_upsertRow (T : StocksTable) (r : StockRec) (k : String) :
    lookupRow (upsertRow T r) k =
      if r.ticker == k then some r else lookupRow T k := by
  unfold upsertRow lookupRow
  by_cases hT : T.any (fun s => s.ticker == r.ticker) = true
  · rw [if_pos hT]
    by_cases hk : r.ticker = k
    · subst hk
      rw [if_pos (by simp)]
      exact find?_map_hit T r hT
    · rw [if_neg (by simp [hk])]
      exact find?_map_replace T r k hk
  · rw [if_neg hT, find?_append_single]
    cases hf : T.find? (fun s => s.ticker == k) with
    | some x =>
      by_cases hk : r.ticker = k
      · exfalso
        refine hT (List.any_eq_true.mpr ⟨x, List.mem_of_find?_eq_some hf, ?_⟩)
        have := List.find?_some hf
        simp only [beq_iff_eq] at this ⊢
        rw [this, hk]
      · simp [hk]
    | none => rfl

theorem tableKeys_upsertRow (T : StocksTable) (r : StockRec) :
    tableKeys (upsertRow T r) =
      if T.any (fun s => s.ticker == r.ticker) = true then tableKeys T
      else tableKeys T ++ [r.ticker] := by
  unfold upsertRow tableKeys
  by_cases hT : T.any (fun s => s.ticker == r.ticker) = true
  · rw [if_pos hT, if_pos hT, List.map_map]
    refine List.map_congr_left ?_
    intro s _
    by_cases hb : s.ticker = r.ticker
    · simp [hb]
    · simp [hb]
  · rw [if_neg hT, if_neg hT, List.map_append, List.map_cons, List.map_nil]

theorem mem_tableKeys_upsertRow (T : StocksTable) (r : StockRec) (k : String) :
    k ∈ tableKeys (upsertRow T r) ↔ k ∈ tableKeys T ∨ k = r.ticker := by
  rw [tableKeys_upsertRow]
  by_cases hT : T.any (fun s => s.ticker == r.ticker) = true
  · rw [if_pos hT]
    constructor
    · exact Or.inl
    · rintro (h | h)
      · exact h
      · exact h ▸ (hasKey_iff T r.ticker).mp hT
  · rw [if_neg hT]
    simp [List.mem_append]

theorem nodupKeys_upsertRow (T : StocksTable) (r : StockRec)
    (h : nodupKeys T) : nodupKeys (upsertRow T r) := by
  unfold nodupKeys
  rw [tableKeys_upsertRow]
  by_cases hT : T.any (fun s => s.ticker == r.ticker) = true
  · rw [if_pos hT]
    exact h
  · rw [if_neg hT]
    have hnm : r.ticker ∉ tableKeys T := fun hc => hT ((hasKey_iff T r.ticker).mpr hc)
    have h' : (tableKeys T).Nodup := h
    simp [List.nodup_append, h', hnm]

theorem applyRows_cons (T : StocksTable) (r : StockRec) (rs : List StockRec) :
    applyRows T (r :: rs) = applyRows (upsertRow T r) rs := rfl

theorem nodupKeys_applyRows (rs : List StockRec) (T : StocksTable)
    (h : nodupKeys T) : nodupKeys (applyRows T rs) := by
  induction rs generalizing T with
  | nil => exact h
  | cons r rs ih => exact ih (upsertRow T r) (nodupKeys_upsertRow T r h)

theorem mem_tableKeys_applyRows_mono (rs : List StockRec) (T : StocksTable)
    (k : String) (h : k ∈ tableKeys T) : k ∈ tableKeys (applyRows T rs) := by
  induction rs generalizing T with
  | nil => exact h
  | cons r rs ih =>
    exact ih (upsertRow T r) ((mem_tableKeys_upsertRow T r k).mpr (Or.inl h))

theorem mem_tableKeys_applyRows_of_mem (rs : List StockRec)
    (T : StocksTable) (r : StockRec) (h : r ∈ rs) :
    r.ticker ∈ tableKeys (applyRows T rs) := by
  induction rs generalizing T with
  | nil => cases h
  | cons r' rs ih =>
    rcases List.mem_cons.mp h with hr | hr
    · subst hr
      exact mem_tableKeys_applyRows_mono rs (upsertRow T r) r.ticker
        ((mem_tableKeys_upsertRow T r r.ticker).mpr (Or.inr rfl))
    · exact ih (upsertRow T r') hr

theorem tableKeys_applyRows_of_subset (rs : List StockRec) (T : StocksTable)
    (h : ∀ r ∈ rs, r.ticker ∈ tableKeys T) :
    tableKeys (applyRows T rs) = tableKeys T := by
  induction rs generalizing T with
  | nil => rfl
  | cons r rs ih =>
    have hkeys : tableKeys (upsertRow T r) = tableKeys T := by
      rw [tableKeys_upsertRow,
        if_pos ((hasKey_iff T r.ticker).mpr (h r (List.mem_cons_self r rs)))]
    rw [applyRows_cons, ih (upsertRow T r) (fun r' hr' =>
      hkeys ▸ h r' (List.mem_cons_of_mem r hr')), hkeys]

theorem lookupRow_applyRows (rs : List StockRec) (T : StocksTable)
    (k : String) :
    lookupRow (applyRows T rs) k =
      match lastUpd rs k with
      | some x => some x
      | none => lookupRow T k := by
  induction rs generalizing T with
  | nil => rfl
  | cons r rs ih =>
    rw [applyRows_cons, ih (upsertRow T r)]
    cases hL : lastUpd rs k with
    | some x => simp [lastUpd, hL]
    | none =>
      rw [lookupRow_upsertRow]
      by_cases hk : r.ticker = k
      · simp [lastUpd, hL, hk]
      · simp [lastUpd, hL, hk]

theorem lookupRow_cons_self (s : StockRec) (T : StocksTable) :
    lookupRow (s :: T) s.ticker = some s :=
  List.find?_cons_of_pos _ (by simp)

theorem lookupRow_cons_of_ne (s : StockRec) (T : StocksTable) (k : String)
    (h : (s.ticker == k) = false) :
    lookupRow (s :: T) k = lookupRow T k := by
  simp only [lookupRow, List.find?_cons, h]

theorem mem_tableKeys (T : StocksTable) (k : String) :
    k ∈ tableKeys T ↔ ∃ s ∈ T, s.ticker = k := by
  simp [tableKeys]

theorem lookupRow_eq_none_of_not_mem (T : StocksTable) (k : String)
    (h : k ∉ tableKeys T) : lookupRow T k = none := by
  rw [lookupRow, List.find?_eq_none]
  intro x hx
  simp only [beq_iff_eq]
  intro hxk
  exact h ((mem_tableKeys T k).mpr ⟨x, hx, hxk⟩)

theorem table_ext (T : StocksTable) :
    ∀ U : StocksTable, nodupKeys T → nodupKeys U →
      tableKeys T = tableKeys U →
      (∀ k, lookupRow T k = lookupRow U k) → T = U := by
  induction T with
  | nil =>
    intro U _ _ hk _
    cases U with
    | nil => rfl
    | cons u U => simp [tableKeys] at hk
  | cons s T ih =>
    intro U hT hU hk hl
    cases U with
    | nil => simp [tableKeys] at hk
    | cons u U =>
      simp only [tableKeys, List.map_cons, List.cons.injEq] at hk
      obtain ⟨hsu, htails⟩ := hk
      have h1 : lookupRow (s :: T) s.ticker = some s := lookupRow_cons_self s T
      have h2 : lookupRow (u :: U) s.ticker = some u := by
        rw [lookupRow, List.find?_cons_of_pos _ (by simp [hsu])]
      have hsu2 : s = u := Option.some.inj ((h1.symm.trans (hl s.ticker)).trans h2)
      subst hsu2
      have hTn : nodupKeys T := List.Nodup.of_cons hT
      have hUn : nodupKeys U := List.Nodup.of_cons hU
      have hsT : s.ticker ∉ tableKeys T := (List.nodup_cons.mp hT).1
      have hsU : s.ticker ∉ tableKeys U := (List.nodup_cons.mp hU).1
      have htl : ∀ k, lookupRow T k = lookupRow U k := by
        intro k
        by_cases hks : k = s.ticker
        · subst hks
          rw [lookupRow_eq_none_of_not_mem T s.ticker hsT,
            lookupRow_eq_none_of_not_mem U s.ticker hsU]
        · have hsk : (s.ticker == k) = false := by
            rw [beq_eq_false_iff_ne]
            exact fun hh => hks hh.symm
          have := hl k
          rw [lookupRow_cons_of_ne s T k hsk,
            lookupRow_cons_of_ne s U k hsk] at this
          exact this
      exact congrArg (s :: ·) (ih U hTn hUn htails htl)

/-! ## Claim about upsert idempotence (C4) -/

/-- Claim C4: `insert_stocks_bulk` is idempotent: starting from any table
with unique tickers (the primary-key invariant), running the same batch a
second time — with the same per-record failures — leaves the table exactly
as after the first run: rows keyed by the same ticker are replaced, never
duplicated (key-uniqueness is preserved), and the row count does not grow. -/
theorem insert_stocks_bulk_idempotent (execFails : StockRec → Bool)
    (T : StocksTable) (stocks : List StockRec) (h : nodupKeys T) :
    nodupKeys (insert_stocks_bulk execFails T stocks).1 ∧
    (insert_stocks_bulk execFails
        (insert_stocks_bulk execFails T stocks).1 stocks).1 =
      (insert_stocks_bulk execFails T stocks).1 ∧
    ((insert_stocks_bulk execFails
        (insert_stocks_bulk execFails T stocks).1 stocks).1).length =
      ((insert_stocks_bulk execFails T stocks).1).length := by
  simp only [insert_stocks_bulk_eq]
  have h1 : nodupKeys (applyRows T (stocks.filter (fun s => !execFails s))) :=
    nodupKeys_applyRows _ T h
  have h2 : nodupKeys (applyRows
      (applyRows T (stocks.filter (fun s => !execFails s)))
      (stocks.filter (fun s => !execFails s))) :=
    nodupKeys_applyRows _ _ h1
  have hkeys : tableKeys (applyRows
      (applyRows T (stocks.filter (fun s => !execFails s)))
      (stocks.filter (fun s => !execFails s))) =
      tableKeys (applyRows T (stocks.filter (fun s => !execFails s))) :=
    tableKeys_applyRows_of_subset _ _
      (fun r hr => mem_tableKeys_applyRows_of_mem _ T r hr)
  have hlook : ∀ k, lookupRow (applyRows
      (applyRows T (stocks.filter (fun s => !execFails s)))
      (stocks.filter (fun s => !execFails s))) k =
      lookupRow (applyRows T (stocks.filter (fun s => !execFails s))) k := by
    intro k
    cases hL : lastUpd (stocks.filter (fun s => !execFails s)) k with
    | some x =>
      rw [lookupRow_applyRows, hL, lookupRow_applyRows, hL]
    | none =>
      rw [lookupRow_applyRows, hL]
  have heq := table_ext _ _ h2 h1 hkeys hlook
  exact ⟨h1, heq, by rw [heq]⟩

/-- A key fact used by the C4 development, recorded for reuse: upserting a
record then looking it up by its ticker yields that record. -/
theorem lookupRow_upsertRow_self (T : StocksTable) (r : StockRec) :
    lookupRow (upsertRow T r) r.ticker = some r := by
  rw [lookupRow_upsertRow, if_pos (by simp)]

/-- Witness for C4 at a concrete one-row table and two-record batch. -/
theorem insert_stocks_bulk_idempotent_witness :
    nodupKeys [row0 ("MSFT") 1] ∧
    (nodupKeys (insert_stocks_bulk (fun _ => false) [row0 ("MSFT") 1]
        [row0 ("AAPL") 2, row0 ("MSFT") 3]).1 ∧
     (insert_stocks_bulk (fun _ => false)
        (insert_stocks_bulk (fun _ => false) [row0 ("MSFT") 1]
          [row0 ("AAPL") 2, row0 ("MSFT") 3]).1
        [row0 ("AAPL") 2, row0 ("MSFT") 3]).1 =
       (insert_stocks_bulk (fun _ => false) [row0 ("MSFT") 1]
          [row0 ("AAPL") 2, row0 ("MSFT") 3]).1 ∧
     ((insert_stocks_bulk (fun _ => false)
        (insert_stocks_bulk (fun _ => false) [row0 ("MSFT") 1]
          [row0 ("AAPL") 2, row0 ("MSFT") 3]).1
        [row0 ("AAPL") 2, row0 ("MSFT") 3]).1).length =
       ((insert_stocks_bulk (fun _ => false) [row0 ("MSFT") 1]
          [row0 ("AAPL") 2, row0 ("MSFT") 3]).1).length) :=
  ⟨by decide,
   insert_stocks_bulk_idempotent (fun _ => false) [row0 ("MSFT") 1]
     [row0 ("AAPL") 2, row0 ("MSFT") 3] (by decide)⟩

/-! ## Claim about the data-status endpoint (C7) -/

theorem get_data_age_eq_none_iff (T : StocksTable) (now : ℚ) :
    get_data_age T now = none ↔ T = [] := by
  rw [get_data_age, Option.map_eq_none']
  exact sqlMaxLastUpdated_eq_none_iff T

/-- Claim C7 counterexample: a non-empty store whose single row was updated
at the current instant has age exactly 0 minutes, and the endpoint reports
`data_age_minutes` as null — Python truthiness treats the age `0.0` like
`None` — although the dataset is not empty. -/
theorem data_status_zero_age_null :
    ([row0 ("AAPL") 0] : StocksTable) ≠ [] ∧
    get_data_age [row0 ("AAPL") 0] 0 = some 0 ∧
    (get_data_status [row0 ("AAPL") 0] [] 0).data_age_minutes = none := by
  refine ⟨by simp, ?_, ?_⟩
  · norm_num [get_data_age, sqlMaxLastUpdated, row0]
  · norm_num [get_data_status, get_data_age, sqlMaxLastUpdated, row0]

/-- Claim C7 (amended): `/api/data/status` reports `data_age_minutes` as the
dataset age rounded to 2 decimals whenever the store contains rows and the
age is nonzero; the field is null when the dataset is empty or when the age
is exactly `0.0` minutes (Python truthiness); the recent refresh audit
records are returned alongside. -/
theorem data_status_age_spec (T : StocksTable) (log : List RefreshRecord)
    (now : ℚ) :
    ((get_data_status T log now).data_age_minutes = none ↔
      T = [] ∨ get_data_age T now = some 0) ∧
    (∀ a, get_data_age T now = some a → a ≠ 0 →
      (get_data_status T log now).data_age_minutes = some (pyRound2 a)) ∧
    (get_data_status T log now).recent_refreshes = get_refresh_history log 5 := by
  refine ⟨?_, ?_, rfl⟩
  · cases h : get_data_age T now with
    | none =>
      constructor
      · intro _
        exact Or.inl ((get_data_age_eq_none_iff T now).mp h)
      · intro _
        simp [get_data_status, h]
    | some a =>
      by_cases ha : a = 0
      · subst ha
        constructor
        · intro _
          exact Or.inr rfl
        · intro _
          simp [get_data_status, h]
      · have hv : (get_data_status T log now).data_age_minutes =
            some (pyRound2 a) := by simp [get_data_status, h, ha]
        constructor
        · intro hc
          rw [hv] at hc
          exact Option.noConfusion hc
        · rintro (hc | hc)
          · rw [(get_data_age_eq_none_iff T now).mpr hc] at h
            exact Option.noConfusion h
          · exact absurd (Option.some.inj hc) ha
  · intro a ha hne
    simp only [get_data_status, ha, if_neg hne]

/-- Witness for the amended C7: a one-row store aged one julian day reports
1440.0 minutes. -/
theorem data_status_age_spec_witness :
    get_data_age [row0 ("AAPL") 0] 1 = some 1440 ∧ (1440 : ℚ) ≠ 0 ∧
    (get_data_status [row0 ("AAPL") 0] [] 1).data_age_minutes =
      some (pyRound2 1440) :=
  ⟨by norm_num [get_data_age, sqlMaxLastUpdated, row0], by norm_num,
   (data_status_age_spec [row0 ("AAPL") 0] [] 1).2.1 1440
     (by norm_num [get_data_age, sqlMaxLastUpdated, row0]) (by norm_num)⟩

end AlphaStream
